import Mathlib

/-!
Shallow embedding of the `flagpole` bit-flag registry
(`flagpole/__init__.py`): the `FlagRegistry` class (registration,
dependency-mask expansion, the multi-pass scheduler, result assembly) and
the `Flags` class (bit allocation).  Python dictionaries are modelled as
ordered association lists, Python integers as `Nat`, raised exceptions as
`Except Err`, and opaque producer callables as identifiers interpreted by
an explicit environment.
-/

namespace Flagpole

/-- Python values as flagpole manipulates them: strings, integers,
sequences (tuples/lists) and string-keyed dictionaries (ordered, as in
CPython 3.7+). -/
inductive Val : Type where
  | vstr : String → Val
  | vint : Int → Val
  | vlist : List Val → Val
  | vdict : List (String × Val) → Val

mutual

/-- Python `==` on the modelled values (structural; dict comparison is
keywise in order, which coincides with CPython's order-insensitive dict
equality for the dicts flagpole itself constructs). -/
def Val.beq : Val → Val → Bool
  | Val.vstr a, Val.vstr b => a == b
  | Val.vint a, Val.vint b => a == b
  | Val.vlist a, Val.vlist b => Val.beqList a b
  | Val.vdict a, Val.vdict b => Val.beqDict a b
  | _, _ => false

/-- Elementwise Python `==` on sequences. -/
def Val.beqList : List Val → List Val → Bool
  | [], [] => true
  | x :: xs, y :: ys => Val.beq x y && Val.beqList xs ys
  | _, _ => false

/-- Pairwise Python `==` on dict items. -/
def Val.beqDict : List (String × Val) → List (String × Val) → Bool
  | [], [] => true
  | (k, v) :: xs, (k', v') :: ys => k == k' && Val.beq v v' && Val.beqDict xs ys
  | _, _ => false

end

/-- Exceptions the embedded code can raise.  `circularDependency` models
`Exception('Circular Dependency Error.')`; `indexError` a Python
`IndexError` from an out-of-range sequence subscript; `typeError` a
`TypeError` (e.g. `dict.update` applied to a non-mapping, or subscripting
a non-sequence); `fuelExhausted` is an artefact of bounding recursion with
fuel and is never produced when the fuel bound suffices. -/
inductive Err : Type where
  | circularDependency : Err
  | indexError : Err
  | typeError : Err
  | fuelExhausted : Err
deriving DecidableEq, Repr

/-- One registry entry, `dict(flag=..., depends_on=..., key=..., rtv_ix=...)`
as appended by `FlagRegistry.register`. -/
structure Entry : Type where
  flag : Nat
  depends_on : Nat
  key : Option String
  rtv_ix : Nat
deriving DecidableEq, Repr

/-- Python `d[k] = v` on an ordered dict: replace in place (keeping the
key's position) when present, append otherwise. -/
def setKey : List (String × Val) → String → Val → List (String × Val)
  | [], k, v => [(k, v)]
  | (k', v') :: rest, k, v =>
    if k' = k then (k, v) :: rest else (k', v') :: setKey rest k v

/-- Python `d.update(other)` for a mapping `other`: set each key of
`other` in order. -/
def dictUpdate (d : List (String × Val)) (pairs : List (String × Val)) :
    List (String × Val) :=
  pairs.foldl (fun acc p => setKey acc p.1 p.2) d

/-- Python `seq[i]`: succeeds on a list with the index in range, raises
`IndexError` when out of range, `TypeError` on a non-sequence. -/
def pyIndex : Val → Nat → Except Err Val
  | Val.vlist l, i =>
    match l.get? i with
    | some v => Except.ok v
    | none => Except.error Err.indexError
  | _, _ => Except.error Err.typeError

/-- Truthiness of `entry['key']` in `if entry['key']:` — `None` and the
empty string are falsy; returns the key when truthy. -/
def keyTruthy : Option String → Option String
  | some k => if k = "" then none else some k
  | none => none

/-- The registry `self.r`: an insertion-ordered mapping from producer
identifiers (opaque callables, modelled as `Nat`) to their entry lists,
as built by a `defaultdict(list)`. -/
structure FlagRegistry : Type where
  r : List (Nat × List Entry)
deriving DecidableEq, Repr

/-- `self.r[method]` (lookup; a never-registered method yields `[]`, the
defaultdict default). -/
def FlagRegistry.entriesOf (R : FlagRegistry) (m : Nat) : List Entry :=
  (R.r.lookup m).getD []

/-- The registry's producers in iteration (= insertion) order,
`self.r.keys()`. -/
def FlagRegistry.methods (R : FlagRegistry) : List Nat :=
  R.r.map Prod.fst

/-- Loop body of `register`'s decorator: for `idx` in
`range(len(flag_list))`, append an entry built from `flag_list[idx]`,
`depends_on`, `key_list[idx]` and `rtv_ix=idx`.  Subscripting `key_list`
past its end raises `IndexError`; surplus elements of `key_list` are
never read. -/
def registerFrom (dependsOn : Nat) (keyList : List (Option String)) :
    List Nat → Nat → Except Err (List Entry)
  | [], _ => Except.ok []
  | f :: fs, idx =>
    match keyList.get? idx with
    | none => Except.error Err.indexError
    | some k =>
      match registerFrom dependsOn keyList fs (idx + 1) with
      | Except.error e => Except.error e
      | Except.ok rest =>
        Except.ok ({ flag := f, depends_on := dependsOn, key := k,
                     rtv_ix := idx } :: rest)

/-- `FlagRegistry.register(flag, depends_on, key)` for one producer: the
entry list the decorator appends for it (`flag`/`key` already in their
list forms, scalars having been wrapped into one-element lists). -/
def register (flagList : List Nat) (dependsOn : Nat)
    (keyList : List (Option String)) : Except Err (List Entry) :=
  registerFrom dependsOn keyList flagList 0

/-- `_get_method_flag`: fold bitwise OR of the method's entry flags and of
its entry dependency masks. -/
def getMethodFlag (R : FlagRegistry) (m : Nat) : Nat × Nat :=
  (R.entriesOf m).foldl
    (fun p e => (p.1 ||| e.flag, p.2 ||| e.depends_on)) (0, 0)

/-- `_find_methods_matching_flag`: the registered methods (in registry
order) whose method flag intersects the given flag. -/
def findMethodsMatchingFlag (R : FlagRegistry) (flag : Nat) : List Nat :=
  R.methods.filter (fun m => (getMethodFlag R m).1 &&& flag ≠ 0)

/-- Python `set.add` on the visited set `calculated`. -/
def insertMethod (m : Nat) (c : List Nat) : List Nat :=
  if m ∈ c then c else m :: c

/-- The `for m in methods:` loop of `_calculate_dependency_flag`,
abstracted over the recursive call `step`: raise on a method already in
the (shared) visited set, otherwise recurse and OR the result in,
threading the visited set to the later iterations. -/
def calcDepGo (step : Nat → List Nat → Except Err (Nat × List Nat)) :
    List Nat → Nat → List Nat → Except Err (Nat × List Nat)
  | [], deps, calculated => Except.ok (deps, calculated)
  | m' :: rest, deps, calculated =>
    if m' ∈ calculated then Except.error Err.circularDependency
    else
      match step m' calculated with
      | Except.error e => Except.error e
      | Except.ok (d, c) => calcDepGo step rest (deps ||| d) c

/-- `_calculate_dependency_flag(method, calculated)`.  `calculated` is a
mutable set shared along the whole expansion (additions made inside a
recursive call are visible to the caller's later loop iterations), so it
is threaded through and returned.  The `None` default and the
`if not calculated:` reset are modelled by the empty list.  Recursion is
bounded by `fuel`; every recursive call strictly grows `calculated`, so
fuel exceeding the number of registered methods never runs out. -/
def calcDep (R : FlagRegistry) : Nat → Nat → List Nat →
    Except Err (Nat × List Nat)
  | 0, _, _ => Except.error Err.fuelExhausted
  | fuel + 1, m, calculated₀ =>
    let calculated := if calculated₀.isEmpty then [m]
                      else insertMethod m calculated₀
    let deps := (getMethodFlag R m).2
    calcDepGo (calcDep R fuel) (findMethodsMatchingFlag R deps) deps calculated

/-- `_calculate_dependency_flag(method)` as called with the default
`calculated=None`: only the resulting dependency mask. -/
def calculateDependencyFlag (R : FlagRegistry) (m : Nat) : Except Err Nat :=
  match calcDep R (R.r.length + 1) m [] with
  | Except.error e => Except.error e
  | Except.ok (d, _) => Except.ok d

/-- Loop of `_validate_flags`: for each registered method (in registry
order), skip it when the accumulated flags miss its method flag,
otherwise OR in its transitive dependency flag. -/
def validateFlagsGo (R : FlagRegistry) : List Nat → Nat → Except Err Nat
  | [], flags => Except.ok flags
  | m :: ms, flags =>
    if flags &&& (getMethodFlag R m).1 = 0 then validateFlagsGo R ms flags
    else
      match calculateDependencyFlag R m with
      | Except.error e => Except.error e
      | Except.ok d => validateFlagsGo R ms (flags ||| d)

/-- `_validate_flags(flags)`: expand the requested mask with every
matching method's transitive dependency closure. -/
def validateFlags (R : FlagRegistry) (flags : Nat) : Except Err Nat :=
  validateFlagsGo R R.methods flags

/-- Environment interpreting the opaque producer callables: a producer
identifier applied to its received positional arguments and keyword
arguments yields its return value.  Producers are modelled as pure. -/
def Impl : Type := Nat → List Val → List (String × Val) → Val

/-- Result of `_execute_method`: `done` is its boolean return value
(`True` removes the method from future passes), `result` the possibly
mutated result dict, and `invoked` the full positional argument list the
producer received, when it was actually called. -/
structure ExecOut : Type where
  done : Bool
  result : List (String × Val)
  invoked : Option (List Val)

/-- Return-value unpacking loop of `_execute_method` (lines 190-199): for
each entry, take `retval[entry['rtv_ix']]` when the method has several
entries (before the flag test, as in the source), then, when `flags`
intersects the entry flag, either assign under the entry key (when
truthy) or shallow-merge a mapping return value. -/
def writeEntriesGo (multi : Bool) (retval : Val) (flags : Nat) :
    List Entry → List (String × Val) → Except Err (List (String × Val))
  | [], result => Except.ok result
  | e :: es, result =>
    match (if multi then pyIndex retval e.rtv_ix else Except.ok retval) with
    | Except.error err => Except.error err
    | Except.ok keyRetval =>
      if flags &&& e.flag ≠ 0 then
        match keyTruthy e.key with
        | some k => writeEntriesGo multi retval flags es (setKey result k keyRetval)
        | none =>
          match keyRetval with
          | Val.vdict d => writeEntriesGo multi retval flags es (dictUpdate result d)
          | _ => Except.error Err.typeError
      else writeEntriesGo multi retval flags es result

/-- `_execute_method`: irrelevant methods are dropped (return `True`
without invocation); a method with a nonzero dependency mask sharing no
bit with `executed_flag` is postponed (return `False`); otherwise the
method is invoked — with a leading shallow copy of `result` exactly when
`result not in args` and (dependencies are nonzero or
`pass_datastructure`) — and its return values are written into `result`. -/
def executeMethod (R : FlagRegistry) (impl : Impl) (m : Nat)
    (methodFlag methodDeps executedFlag : Nat)
    (result : List (String × Val)) (passDs : Bool) (flags : Nat)
    (args : List Val) (kwargs : List (String × Val)) : Except Err ExecOut :=
  if flags &&& methodFlag = 0 then
    Except.ok { done := true, result := result, invoked := none }
  else if methodDeps ≠ 0 ∧ methodDeps &&& executedFlag = 0 then
    Except.ok { done := false, result := result, invoked := none }
  else
    let callArgs :=
      if !(args.any (Val.beq (Val.vdict result))) &&
          (decide (methodDeps ≠ 0) || passDs) then
        Val.vdict result :: args
      else args
    let retval := impl m callArgs kwargs
    match writeEntriesGo (decide (1 < (R.entriesOf m).length)) retval flags
        (R.entriesOf m) result with
    | Except.error e => Except.error e
    | Except.ok result' =>
      Except.ok { done := true, result := result', invoked := some callArgs }

/-- One invocation record kept by the embedding's execution trace: the
method, the executed mask at the moment it was invoked, and the
positional arguments it received. -/
structure CallRec : Type where
  method : Nat
  executedAtCall : Nat
  args : List Val

/-- Loop of `_do_method_pass`: scan the queue, updating `executed_flag`
after every method removed (so later methods in the same pass observe
earlier executions), appending postponed methods to the next queue, and
recording whether any method was removed.  The trace accumulates actual
invocations. -/
def doMethodPassGo (R : FlagRegistry) (impl : Impl) (passDs : Bool)
    (flags : Nat) (args : List Val) (kwargs : List (String × Val)) :
    List Nat → Nat → List (String × Val) → Bool → List Nat → List CallRec →
    Except Err (List Nat × Nat × List (String × Val) × Bool × List CallRec)
  | [], executed, result, didExec, nextQueue, trace =>
    Except.ok (nextQueue, executed, result, didExec, trace)
  | m :: ms, executed, result, didExec, nextQueue, trace =>
    match executeMethod R impl m (getMethodFlag R m).1 (getMethodFlag R m).2
        executed result passDs flags args kwargs with
    | Except.error e => Except.error e
    | Except.ok out =>
      if out.done then
        doMethodPassGo R impl passDs flags args kwargs ms
          (executed ||| (getMethodFlag R m).1) out.result true nextQueue
          (trace ++ (match out.invoked with
                     | some a => [{ method := m, executedAtCall := executed,
                                    args := a }]
                     | none => []))
      else
        doMethodPassGo R impl passDs flags args kwargs ms
          executed out.result didExec (nextQueue ++ [m]) trace

/-- `_do_method_pass`: one scan over the queue; raises the circular
dependency error when the pass removed no method. -/
def doMethodPass (R : FlagRegistry) (impl : Impl) (queue : List Nat)
    (executed : Nat) (result : List (String × Val)) (passDs : Bool)
    (flags : Nat) (args : List Val) (kwargs : List (String × Val)) :
    Except Err (List Nat × Nat × List (String × Val) × List CallRec) :=
  match doMethodPassGo R impl passDs flags args kwargs queue executed result
      false [] [] with
  | Except.error e => Except.error e
  | Except.ok (nextQueue, executed', result', didExec, trace) =>
    if didExec then Except.ok (nextQueue, executed', result', trace)
    else Except.error Err.circularDependency

/-- `while len(method_queue) > 0` loop of `build_out`.  Each successful
pass strictly shrinks the queue, so fuel equal to the initial queue
length never runs out. -/
def buildOutLoop (R : FlagRegistry) (impl : Impl) (passDs : Bool)
    (flags : Nat) (args : List Val) (kwargs : List (String × Val)) :
    Nat → List Nat → Nat → List (String × Val) → List CallRec →
    Except Err (List (String × Val) × List CallRec)
  | fuel, queue, executed, result, trace =>
    if queue.isEmpty then Except.ok (result, trace)
    else
      match fuel with
      | 0 => Except.error Err.fuelExhausted
      | fuel' + 1 =>
        match doMethodPass R impl queue executed result passDs flags args
            kwargs with
        | Except.error e => Except.error e
        | Except.ok (queue', executed', result', trace') =>
          buildOutLoop R impl passDs flags args kwargs fuel' queue' executed'
            result' (trace ++ trace')

/-- `build_out(flags, *args, pass_datastructure=..., start_with=...,
**kwargs)`: expand the requested mask, seed the result from `start_with`
when that is truthy (a fresh empty dict otherwise — `start_with or
dict()`), then run scheduling passes until the queue empties.  Returns
the final result dict together with the invocation trace. -/
def buildOut (R : FlagRegistry) (impl : Impl) (flags₀ : Nat)
    (args : List Val) (kwargs : List (String × Val)) (passDs : Bool)
    (startWith : List (String × Val)) :
    Except Err (List (String × Val) × List CallRec) :=
  match validateFlags R flags₀ with
  | Except.error e => Except.error e
  | Except.ok flags =>
    buildOutLoop R impl passDs flags args kwargs R.r.length R.methods 0
      (if startWith.isEmpty then [] else startWith) []

/-- Ordered-dict assignment for the `Flags` class's `OrderedDict` of
`String → Nat`: replace in place when the key exists, append otherwise. -/
def odSetKey : List (String × Nat) → String → Nat → List (String × Nat)
  | [], k, v => [(k, v)]
  | (k', v') :: rest, k, v =>
    if k' = k then (k, v) :: rest else (k', v') :: odSetKey rest k v

/-- Loop of `Flags.__init__`: `self.flags[flag] = 2**self._idx` for each
declared name, `self._idx` incrementing on every iteration (also for a
repeated name). -/
def flagsLoop : List String → Nat → List (String × Nat) → List (String × Nat)
  | [], _, d => d
  | n :: ns, idx, d => flagsLoop ns (idx + 1) (odSetKey d n (2 ^ idx))

/-- `Flags(*names)`: the `OrderedDict` the constructor builds — one bit
per declared name, then the synthetic members
`ALL = 2**idx - 1`, `None = 0`, `NONE = 0`. -/
def mkFlags (names : List String) : List (String × Nat) :=
  odSetKey (odSetKey (odSetKey (flagsLoop names 0 [])
    "ALL" (2 ^ names.length - 1)) "None" 0) "NONE" 0

/-- `Flags.__getattr__`: lookup of a member name (`none` models the
`KeyError` on an unknown name). -/
def flagsGet (names : List String) (k : String) : Option Nat :=
  (mkFlags names).lookup k

/-- The association list of one power of two per name, starting at
exponent `idx` — what `Flags.__init__`'s loop produces when no name
repeats. -/
def powList : List String → Nat → List (String × Nat)
  | [], _ => []
  | n :: ns, i => (n, 2 ^ i) :: powList ns (i + 1)

/-- A CPython object reference as needed to discuss object identity: an
object id paired with the object's (dict) value.  Two distinct ids model
two distinct live objects, which may or may not compare equal with `==`. -/
structure Obj : Type where
  oid : Nat
  val : List (String × Val)

/-- Lines 184-188 of `_execute_method` with CPython object identity made
explicit: `result not in args` is `not any(result is a or result == a)`,
identity being id equality and `==` being `Val.beq`; when the snapshot
`dict(result)` is passed it is a fresh object (`freshId`) whose value is
a shallow copy of the live result. -/
def callArgsObj (freshId : Nat) (resultObj : Obj) (args : List (Nat × Val))
    (methodDeps : Nat) (passDs : Bool) : List (Nat × Val) :=
  if !(args.any (fun a =>
        a.1 == resultObj.oid || Val.beq a.2 (Val.vdict resultObj.val))) &&
      (decide (methodDeps ≠ 0) || passDs) then
    (freshId, Val.vdict resultObj.val) :: args
  else args

/-- `build_out` with the identity of the result object tracked:
`result = start_with or dict()` keeps `start_with`'s identity exactly
when `start_with` is truthy (non-empty), and allocates a fresh object
(`freshId`, distinct from every live id) otherwise.  The scheduling loop
only ever calls `result.update(...)`, which never changes the result's
identity, so the returned object carries the seed's id. -/
def buildOutObj (R : FlagRegistry) (impl : Impl) (flags₀ : Nat)
    (args : List Val) (kwargs : List (String × Val)) (passDs : Bool)
    (startWith : Obj) (freshId : Nat) : Except Err Obj :=
  match validateFlags R flags₀ with
  | Except.error e => Except.error e
  | Except.ok flags =>
    let seed : Obj := if startWith.val.isEmpty then { oid := freshId, val := [] }
                      else startWith
    match buildOutLoop R impl passDs flags args kwargs R.r.length R.methods 0
        seed.val [] with
    | Except.error e => Except.error e
    | Except.ok (res, _) => Except.ok { oid := seed.oid, val := res }

/-- Producer environment returning the same constant value for every
producer (the producers' outputs are irrelevant to scheduling claims). -/
def implConst : Impl := fun _ _ _ => Val.vstr "v"

/-- Registry with producers `0` (flag 1, key "a"), `1` (flag 4, key "c",
`depends_on = 3`, i.e. on flags 1 and 2) and `2` (flag 2, key "b"), in
that registration order: producer `1` needs both of the other two, and
sits between them in the queue. -/
def Rc1 : FlagRegistry :=
  { r := [(0, [{ flag := 1, depends_on := 0, key := some "a", rtv_ix := 0 }]),
          (1, [{ flag := 4, depends_on := 3, key := some "c", rtv_ix := 0 }]),
          (2, [{ flag := 2, depends_on := 0, key := some "b", rtv_ix := 0 }])] }

/-- Registry with producer `0` (flag 1, key "a") and producer `1`
(flag 2, key "b", depending on flag 1). -/
def Rc2 : FlagRegistry :=
  { r := [(0, [{ flag := 1, depends_on := 0, key := some "a", rtv_ix := 0 }]),
          (1, [{ flag := 2, depends_on := 1, key := some "b", rtv_ix := 0 }])] }

/-- Producer environment for `Rc2`: producer 0 returns "va", producer 1
returns "vb". -/
def implc2 : Impl := fun m _ _ => if m = 0 then Val.vstr "va" else Val.vstr "vb"

/-- Acyclic diamond registry: producer `0` depends on flags 2 and 4
(producers `1` and `2`), each of which depends on flag 8 (producer `3`).
The two dependency chains `0 → 1 → 3` and `0 → 2 → 3` share the common
ancestor `3`, and the dependency graph has no cycle. -/
def Rdiamond : FlagRegistry :=
  { r := [(0, [{ flag := 1, depends_on := 6, key := some "p", rtv_ix := 0 }]),
          (1, [{ flag := 2, depends_on := 8, key := some "q", rtv_ix := 0 }]),
          (2, [{ flag := 4, depends_on := 8, key := some "r", rtv_ix := 0 }]),
          (3, [{ flag := 8, depends_on := 0, key := some "s", rtv_ix := 0 }])] }

/-- Dependency edge of the registry's graph: `m` depends on `m'` when
`m`'s dependency mask intersects `m'`'s method flag (so `m'` must run
before `m`). -/
def depEdge (R : FlagRegistry) (m m' : Nat) : Bool :=
  decide ((getMethodFlag R m).2 &&& (getMethodFlag R m').1 ≠ 0)

/-- A topological height witnessing that `Rdiamond`'s dependency graph is
acyclic: producer `3` at height 0, producers `1`, `2` at height 1,
producer `0` at height 2. -/
def rankDiamond (m : Nat) : Nat :=
  if m = 3 then 0 else if m = 0 then 2 else 1

/-- Mutual-cycle registry: producer `0` (flag 1) depends on flag 2, and
producer `1` (flag 2) depends on flag 1. -/
def Rc4 : FlagRegistry :=
  { r := [(0, [{ flag := 1, depends_on := 2, key := some "one", rtv_ix := 0 }]),
          (1, [{ flag := 2, depends_on := 1, key := some "two", rtv_ix := 0 }])] }

/-- Registry with a single producer `0` (flag 1, key "a"), used for the
`start_with` identity claims. -/
def Rc7 : FlagRegistry :=
  { r := [(0, [{ flag := 1, depends_on := 0, key := some "a", rtv_ix := 0 }])] }

/-- Entries of a producer registered once with several return values:
entry `i` carries the `i`-th flag and key and `rtv_ix = i`, with no
dependencies — exactly what `register` produces from equal-length
flag/key sequences. -/
def mkEntries9 : List (Nat × String × Val) → Nat → List Entry
  | [], _ => []
  | (f, k, _) :: ps, i =>
    { flag := f, depends_on := 0, key := some k, rtv_ix := i } ::
      mkEntries9 ps (i + 1)

/-- Registry holding one multi-output dependency-free producer described
by `ps` (per-output flag, key and return value). -/
def R9 (ps : List (Nat × String × Val)) : FlagRegistry :=
  { r := [(0, mkEntries9 ps 0)] }

/-- Producer environment for `R9 ps`: the producer returns the tuple of
its declared output values. -/
def impl9 (ps : List (Nat × String × Val)) : Impl :=
  fun _ _ _ => Val.vlist (ps.map (fun p => p.2.2))

/-- The outputs of `ps` selected by a mask: the (key, value) pairs of
exactly those outputs whose flag intersects the mask, in declaration
order. -/
def selected9 (mask : Nat) : List (Nat × String × Val) → List (String × Val)
  | [] => []
  | (f, k, v) :: ps =>
    if mask &&& f ≠ 0 then (k, v) :: selected9 mask ps else selected9 mask ps

/-! ## Bitmask helper lemmas -/

/-- Absorption: `(x ||| y) &&& y = y`. -/
theorem or_and_absorb_right (x y : Nat) : (x ||| y) &&& y = y := by
  apply Nat.eq_of_testBit_eq
  intro i
  rw [Nat.testBit_and, Nat.testBit_or]
  cases Nat.testBit x i <;> cases Nat.testBit y i <;> rfl

/-- Absorption: `(x ||| y) &&& x = x`. -/
theorem or_and_absorb_left (x y : Nat) : (x ||| y) &&& x = x := by
  apply Nat.eq_of_testBit_eq
  intro i
  rw [Nat.testBit_and, Nat.testBit_or]
  cases Nat.testBit x i <;> cases Nat.testBit y i <;> rfl

/-- A mask intersecting a bitwise subset of `g` intersects `g`. -/
theorem and_ne_zero_of_subset {mask f g : Nat} (hsub : f ||| g = g)
    (h : mask &&& f ≠ 0) : mask &&& g ≠ 0 := by
  intro hg
  apply h
  have hf : f &&& g = f := by
    have hgf := or_and_absorb_left f g
    rw [hsub] at hgf
    rw [Nat.and_comm]
    exact hgf
  calc mask &&& f = mask &&& (f &&& g) := by rw [hf]
    _ = mask &&& (g &&& f) := by rw [Nat.and_comm f g]
    _ = (mask &&& g) &&& f := by rw [Nat.and_assoc]
    _ = 0 &&& f := by rw [hg]
    _ = 0 := Nat.zero_and f

/-! ## C1 — scheduling runs a producer before all its dependency flags
are covered -/

/-- C1: REFUTED (code bug).  The claim says a producer whose nonzero
dependency mask is not fully contained in the executed mask stays
blocked.  The source only tests `method_dependencies & executed_flag`
for being nonzero, so one satisfied dependency bit unblocks the
producer.  In `Rc1`, producer 1 (flag 4) depends on flags 1 and 2; the
trace of `build_out(7)` shows it invoked with the executed mask still at
1 (only flag 1 done, flag 2 still pending, with producer 2 invoked only
afterwards), and `3 &&& 1 ≠ 3` states that its dependency mask was not
covered at that moment. -/
theorem C1_runs_before_deps_covered :
    buildOut Rc1 implConst 7 [] [] false [] =
      Except.ok
        ([("a", Val.vstr "v"), ("c", Val.vstr "v"), ("b", Val.vstr "v")],
         [{ method := 0, executedAtCall := 0, args := [] },
          { method := 1, executedAtCall := 1,
            args := [Val.vdict [("a", Val.vstr "v")]] },
          { method := 2, executedAtCall := 5, args := [] }]) ∧
    (getMethodFlag Rc1 1).2 = 3 ∧ (3 : Nat) &&& 1 ≠ 3 :=
  ⟨rfl, rfl, by decide⟩

/-! ## C3 — false circular-dependency report on an acyclic diamond -/

/-- C3: REFUTED (code bug).  `Rdiamond`'s dependency graph is acyclic:
every dependency edge strictly decreases the topological height
`rankDiamond` (first conjunct, checked over all registered producers).
Yet expanding producer 0's transitive dependency mask raises the
circular-dependency error (second conjunct), because the visited set is
shared between the two sibling branches that meet at producer 3. -/
theorem C3_diamond_false_cycle :
    (∀ m ∈ [0, 1, 2, 3], ∀ m' ∈ [0, 1, 2, 3],
        depEdge Rdiamond m m' = true → rankDiamond m' < rankDiamond m) ∧
    calculateDependencyFlag Rdiamond 0 = Except.error Err.circularDependency :=
  ⟨by decide, rfl⟩

/-! ## C4 — mutual cycle raises at expansion time and at scheduling
time -/

/-- C4: CONFIRMED.  For the two mutually dependent producers of `Rc4`
(producer 0 has flag 1 and depends on flag 2; producer 1 has flag 2 and
depends on flag 1), static dependency-mask expansion of either producer
raises the circular-dependency error, and so does one scheduling pass
over a queue holding both producers with both flags requested and an
executed mask of 0. -/
theorem C4_mutual_cycle_raises :
    calculateDependencyFlag Rc4 0 = Except.error Err.circularDependency ∧
    calculateDependencyFlag Rc4 1 = Except.error Err.circularDependency ∧
    doMethodPass Rc4 implConst [0, 1] 0 [] false 3 [] [] =
      Except.error Err.circularDependency :=
  ⟨rfl, rfl, rfl⟩

/-! ## C2 — storage is gated by the expanded mask, not the original
one -/

/-- C2: counterexample.  `build_out` is called on `Rc2` with the original
requested mask 2 (only producer 1's flag).  Producer 0's entry flag 1
does not intersect the original mask (`1 &&& 2 = 0`), yet its value is
stored under key "a" — because storage is tested against the
dependency-expanded mask 3, not the original mask.  This refutes
"stored if and only if that entry's flag intersects the original
requested mask". -/
theorem C2_counterexample :
    buildOut Rc2 implc2 2 [] [] false [] =
      Except.ok
        ([("a", Val.vstr "va"), ("b", Val.vstr "vb")],
         [{ method := 0, executedAtCall := 0, args := [] },
          { method := 1, executedAtCall := 1,
            args := [Val.vdict [("a", Val.vstr "va")]] }]) ∧
    (1 : Nat) &&& 2 = 0 :=
  ⟨rfl, by decide⟩

/-! ## C5 — mismatched flag/key arity -/

/-- C5: counterexample.  Registering with a flag sequence longer than the
key sequence fails with an out-of-range lookup (`IndexError`), not a
`ConfigurationError`; registering with a key sequence longer than the
flag sequence succeeds, silently dropping the surplus key — both
behaviours the claim explicitly rules out (the embedded code has no
`ConfigurationError` outcome at all). -/
theorem C5_counterexample :
    register [1, 2] 0 [some "a"] = Except.error Err.indexError ∧
    register [1] 0 [some "a", some "b"] =
      Except.ok [{ flag := 1, depends_on := 0, key := some "a", rtv_ix := 0 }] :=
  ⟨rfl, rfl⟩

/-! ## C7 — result identity versus `start_with` -/

/-- C7: counterexample.  An empty mapping supplied as `start_with`
(object id 5) is falsy, so `start_with or dict()` allocates a fresh
mapping (id 6) and the returned result is not the same object as
`start_with` — refuting "for every start_with mapping ... including an
empty one, the returned result is the very same mapping object". -/
theorem C7_counterexample :
    buildOutObj Rc7 implConst 1 [] [] false { oid := 5, val := [] } 6 =
      Except.ok { oid := 6, val := [("a", Val.vstr "v")] } ∧
    (6 : Nat) ≠ 5 :=
  ⟨rfl, by decide⟩

/-! ## C8 — flag allocation -/

/-- C8: counterexample.  For the declared name sequence `["A", "A"]`
(n = 2), the claim asserts the 0th name is assigned `2^0 = 1`; the
constructor instead leaves "A" bound to `2^1 = 2` (the second
assignment overwrites the first), so the per-index power-of-two
assignment fails for name sequences with repetitions. -/
theorem C8_counterexample :
    mkFlags ["A", "A"] = [("A", 2), ("ALL", 3), ("None", 0), ("NONE", 0)] ∧
    (2 : Nat) ≠ 2 ^ 0 :=
  ⟨rfl, by decide⟩

/-! ## C6 — when the leading snapshot is passed -/

/-- C6: counterexample.  The producer has dependency mask 0 but snapshot
passing was requested (`pass_datastructure = true`), and the single
extra positional argument (object id 1) is not reference-identical to
the live result object (id 0) — so by the claim the snapshot must be
prepended.  The code instead compares with Python `in` (equality): the
argument, a distinct empty dict, compares equal to the empty live
result, and the snapshot is omitted (the call receives exactly the
original arguments). -/
theorem C6_counterexample :
    ((0 : Nat) ≠ 0 ∨ true = true) ∧
    (∀ a ∈ [((1 : Nat), Val.vdict [])], a.1 ≠ 0) ∧
    callArgsObj 7 { oid := 0, val := [] } [(1, Val.vdict [])] 0 true =
      [(1, Val.vdict [])] :=
  ⟨Or.inr rfl, by intro a ha; rw [List.mem_singleton.mp ha]; decide, rfl⟩

/-! ## C10 — dependency expansion is extensive -/

/-- Each step of the `_validate_flags` loop only ORs additional bits
into the running mask, so a successful run's result contains every bit
of its starting mask. -/
theorem validateFlagsGo_extensive (R : FlagRegistry) :
    ∀ (ms : List Nat) (f m : Nat),
      validateFlagsGo R ms f = Except.ok m → f ||| m = m := by
  intro ms
  induction ms with
  | nil =>
    intro f m h
    simp only [validateFlagsGo] at h
    cases h
    exact Nat.or_self f
  | cons a as ih =>
    intro f m h
    simp only [validateFlagsGo] at h
    by_cases hc : f &&& (getMethodFlag R a).1 = 0
    · rw [if_pos hc] at h
      exact ih f m h
    · rw [if_neg hc] at h
      cases hcd : calculateDependencyFlag R a with
      | error e =>
        rw [hcd] at h
        cases h
      | ok d =>
        rw [hcd] at h
        have h2 := ih (f ||| d) m h
        calc f ||| m = f ||| ((f ||| d) ||| m) := by rw [h2]
          _ = (f ||| (f ||| d)) ||| m := (Nat.or_assoc ..).symm
          _ = ((f ||| f) ||| d) ||| m := by rw [Nat.or_assoc f f d]
          _ = (f ||| d) ||| m := by rw [Nat.or_self]
          _ = m := h2

/-- C10: CONFIRMED.  Dependency expansion is extensive: whenever
`_validate_flags` returns a mask, that mask contains every bit of the
requested input mask (`flags ||| m = m`), since expansion only ever ORs
dependency bits in and never clears a requested bit. -/
theorem C10_expansion_extensive (R : FlagRegistry) (flags m : Nat)
    (h : validateFlags R flags = Except.ok m) : flags ||| m = m :=
  validateFlagsGo_extensive R R.methods flags m h

/-- C10 witness: on `Rc2`, expanding the requested mask 2 yields 3, and
indeed `2 ||| 3 = 3`. -/
theorem C10_expansion_extensive_witness :
    validateFlags Rc2 2 = Except.ok 3 ∧ (2 : Nat) ||| 3 = 3 :=
  ⟨rfl, C10_expansion_extensive Rc2 2 3 rfl⟩

/-- C7 amended, proved: the returned result is the same object as
`start_with` exactly when `start_with` is non-empty (truthy); when
`start_with` is empty or omitted, a fresh mapping (`freshId`) is created
and returned instead, and the supplied empty mapping is left alone. -/
theorem C7_amended_result_identity (R : FlagRegistry) (impl : Impl)
    (f : Nat) (args : List Val) (kwargs : List (String × Val))
    (passDs : Bool) (sw : Obj) (fid : Nat) (o : Obj)
    (h : buildOutObj R impl f args kwargs passDs sw fid = Except.ok o) :
    (sw.val ≠ [] → o.oid = sw.oid) ∧ (sw.val = [] → o.oid = fid) := by
  unfold buildOutObj at h
  cases hv : validateFlags R f with
  | error e =>
    rw [hv] at h
    cases h
  | ok flags =>
    rw [hv] at h
    rcases hsv : sw.val with _ | ⟨p, rest⟩
    · rw [hsv] at h
      simp only [List.isEmpty_nil, if_true] at h
      cases hl : buildOutLoop R impl passDs flags args kwargs R.r.length
          R.methods 0 (Obj.val { oid := fid, val := [] }) [] with
      | error e =>
        rw [hl] at h
        cases h
      | ok pr =>
        obtain ⟨res, tr⟩ := pr
        rw [hl] at h
        cases h
        exact ⟨fun hne => absurd rfl hne, fun _ => rfl⟩
    · rw [hsv] at h
      simp only [List.isEmpty_cons, if_false, Bool.false_eq_true] at h
      cases hl : buildOutLoop R impl passDs flags args kwargs R.r.length
          R.methods 0 (Obj.val sw) [] with
      | error e =>
        rw [hl] at h
        cases h
      | ok pr =>
        obtain ⟨res, tr⟩ := pr
        rw [hl] at h
        cases h
        exact ⟨fun _ => rfl, fun heq => absurd heq (List.cons_ne_nil p rest)⟩

/-- `odSetKey` on a key absent from the dict appends the binding. -/
theorem odSetKey_fresh (k : String) (v : Nat) :
    ∀ (d : List (String × Nat)), (∀ p ∈ d, p.1 ≠ k) →
      odSetKey d k v = d ++ [(k, v)] := by
  intro d
  induction d with
  | nil => intro _; rfl
  | cons p rest ih =>
    intro hf
    obtain ⟨k', v'⟩ := p
    have hne : k' ≠ k := hf (k', v') (List.mem_cons_self ..)
    simp only [odSetKey]
    rw [if_neg hne, ih (fun q hq => hf q (List.mem_cons_of_mem _ hq))]
    rfl

/-- Every key of `powList ns idx` is one of the names `ns`. -/
theorem powList_mem_fst :
    ∀ (ns : List String) (idx : Nat) (p : String × Nat),
      p ∈ powList ns idx → p.1 ∈ ns := by
  intro ns
  induction ns with
  | nil =>
    intro idx p hp
    cases hp
  | cons n ns ih =>
    intro idx p hp
    rcases List.mem_cons.mp hp with h0 | hrest
    · rw [h0]
      exact List.mem_cons_self ..
    · exact List.mem_cons_of_mem _ (ih (idx + 1) p hrest)

/-- With distinct names all fresh for the accumulator, the constructor's
loop appends one power-of-two binding per name. -/
theorem flagsLoop_fresh :
    ∀ (ns : List String) (idx : Nat) (d : List (String × Nat)),
      ns.Nodup → (∀ n ∈ ns, ∀ p ∈ d, p.1 ≠ n) →
      flagsLoop ns idx d = d ++ powList ns idx := by
  intro ns
  induction ns with
  | nil =>
    intro idx d _ _
    simp [flagsLoop, powList]
  | cons n ns ih =>
    intro idx d hnd hf
    simp only [flagsLoop, powList]
    rw [odSetKey_fresh n (2 ^ idx) d
      (fun p hp => hf n (List.mem_cons_self ..) p hp)]
    rw [ih (idx + 1) (d ++ [(n, 2 ^ idx)]) (List.nodup_cons.mp hnd).2 ?fresh]
    · simp
    case fresh =>
      intro m hm p hp
      rcases List.mem_append.mp hp with hd | hs
      · exact hf m (List.mem_cons_of_mem _ hm) p hd
      · have h1 : p.1 = n := by rw [List.mem_singleton.mp hs]
        rw [h1]
        intro heq
        exact (List.nodup_cons.mp hnd).1 (heq ▸ hm)

/-- A key found in the left part of an append is found in the whole. -/
theorem lookup_append_of_some (k : String) (v : Nat) :
    ∀ (l1 l2 : List (String × Nat)), l1.lookup k = some v →
      (l1 ++ l2).lookup k = some v := by
  intro l1
  induction l1 with
  | nil =>
    intro l2 h
    cases h
  | cons p rest ih =>
    intro l2 h
    obtain ⟨k', v'⟩ := p
    cases hb : (k == k') with
    | true =>
      simp only [List.lookup, hb] at h ⊢
      exact h
    | false =>
      simp only [List.lookup, hb] at h ⊢
      exact ih l2 h

/-- A key absent from the left part of an append is looked up in the
right part. -/
theorem lookup_append_of_absent (k : String) :
    ∀ (l1 l2 : List (String × Nat)), (∀ p ∈ l1, p.1 ≠ k) →
      (l1 ++ l2).lookup k = l2.lookup k := by
  intro l1
  induction l1 with
  | nil =>
    intro l2 _
    rfl
  | cons p rest ih =>
    intro l2 hf
    obtain ⟨k', v'⟩ := p
    have hne : k' ≠ k := hf (k', v') (List.mem_cons_self ..)
    have hb : (k == k') = false := beq_eq_false_iff_ne.mpr (fun he => hne he.symm)
    simp only [List.cons_append, List.lookup, hb]
    exact ih l2 (fun q hq => hf q (List.mem_cons_of_mem _ hq))

/-- Looking up the `i`-th of distinct names in their power list yields
`2 ^ (idx + i)`. -/
theorem powList_lookup :
    ∀ (ns : List String) (idx i : Nat) (h : i < ns.length), ns.Nodup →
      (powList ns idx).lookup ns[i] = some (2 ^ (idx + i)) := by
  intro ns
  induction ns with
  | nil =>
    intro idx i h
    simp at h
  | cons n ns ih =>
    intro idx i h hnd
    cases i with
    | zero =>
      simp [powList, List.lookup]
    | succ j =>
      have hj : j < ns.length := by simpa using h
      have hmem : ns[j] ∈ ns := List.getElem_mem hj
      have hne : (ns[j] == n) = false :=
        beq_eq_false_iff_ne.mpr
          (fun he => (List.nodup_cons.mp hnd).1 (he ▸ hmem))
      simp only [powList, List.lookup, List.getElem_cons_succ, hne]
      rw [show idx + (j + 1) = (idx + 1) + j by omega]
      exact ih (idx + 1) j hj (List.nodup_cons.mp hnd).2

/-- C8 amended, proved: for a sequence of distinct declared names, none
of them one of the synthetic member names `ALL`/`None`/`NONE`, the
constructed FlagSet assigns the `i`-th name the value `2 ^ i` (so the
flag values are pairwise disjoint powers of two), defines `ALL` as
`2 ^ n - 1` and `NONE` as `0`. -/
theorem C8_amended_flag_allocation (names : List String)
    (hnd : names.Nodup) (hALL : "ALL" ∉ names) (hNone : "None" ∉ names)
    (hNONE : "NONE" ∉ names) :
    (∀ i (h : i < names.length), flagsGet names names[i] = some (2 ^ i)) ∧
    flagsGet names "ALL" = some (2 ^ names.length - 1) ∧
    flagsGet names "NONE" = some 0 := by
  have hkeys := powList_mem_fst names 0
  have hbase : flagsLoop names 0 [] = powList names 0 := by
    have := flagsLoop_fresh names 0 [] hnd (by intro n _ p hp; cases hp)
    simpa using this
  have hMk : mkFlags names = powList names 0 ++
      [("ALL", 2 ^ names.length - 1), ("None", 0), ("NONE", 0)] := by
    unfold mkFlags
    rw [hbase]
    rw [odSetKey_fresh "ALL" _ _
      (fun p hp heq => hALL (heq ▸ hkeys p hp))]
    rw [odSetKey_fresh "None" _ _ ?h1]
    rw [odSetKey_fresh "NONE" _ _ ?h2]
    · simp
    case h1 =>
      intro p hp heq
      rcases List.mem_append.mp hp with hd | hs
      · exact hNone (heq ▸ hkeys p hd)
      · rw [List.mem_singleton.mp hs] at heq
        have hlit : ("ALL" : String) = "None" := heq
        exact absurd hlit (by decide)
    case h2 =>
      intro p hp heq
      rcases List.mem_append.mp hp with hd | hs
      · rcases List.mem_append.mp hd with hdd | hds
        · exact hNONE (heq ▸ hkeys p hdd)
        · rw [List.mem_singleton.mp hds] at heq
          have hlit : ("ALL" : String) = "NONE" := heq
          exact absurd hlit (by decide)
      · rw [List.mem_singleton.mp hs] at heq
        have hlit : ("None" : String) = "NONE" := heq
        exact absurd hlit (by decide)
  refine ⟨?_, ?_, ?_⟩
  · intro i h
    unfold flagsGet
    rw [hMk]
    have hp := powList_lookup names 0 i h hnd
    rw [lookup_append_of_some _ _ _ _ hp]
    rw [Nat.zero_add]
  · unfold flagsGet
    rw [hMk]
    rw [lookup_append_of_absent "ALL" _ _
      (fun p hp heq => hALL (heq ▸ hkeys p hp))]
    rfl
  · unfold flagsGet
    rw [hMk]
    rw [lookup_append_of_absent "NONE" _ _
      (fun p hp heq => hNONE (heq ▸ hkeys p hp))]
    rfl

/-- C8 witness: for `Flags('A', 'B', 'C')`, the name "B" (index 1) is
assigned `2 = 2^1`, `ALL = 7 = 2^3 - 1` and `NONE = 0`. -/
theorem C8_amended_flag_allocation_witness :
    flagsGet ["A", "B", "C"] "B" = some 2 ∧
    flagsGet ["A", "B", "C"] "ALL" = some 7 ∧
    flagsGet ["A", "B", "C"] "NONE" = some 0 := by
  have h := C8_amended_flag_allocation ["A", "B", "C"] (by decide)
    (by decide) (by decide) (by decide)
  exact ⟨h.1 1 (by decide), h.2.1, h.2.2⟩

/-- C6 amended, proved: a producer receives the leading snapshot exactly
when (its dependency mask is nonzero or snapshot-passing was requested)
and no extra positional argument is identical to — or compares equal
(Python `==`, the `in` semantics) with — the live result object; and in
every case the caller's extra positional arguments are forwarded
unchanged as the suffix of the delivered argument list. -/
theorem C6_amended_snapshot_condition (fid : Nat) (ro : Obj)
    (args : List (Nat × Val)) (deps : Nat) (passDs : Bool) :
    (callArgsObj fid ro args deps passDs =
        (fid, Val.vdict ro.val) :: args ↔
      ((∀ a ∈ args, ¬(a.1 = ro.oid ∨ Val.beq a.2 (Val.vdict ro.val) = true)) ∧
        (deps ≠ 0 ∨ passDs = true))) ∧
    (callArgsObj fid ro args deps passDs = (fid, Val.vdict ro.val) :: args ∨
      callArgsObj fid ro args deps passDs = args) := by
  have hcond : (!(args.any fun a =>
        a.1 == ro.oid || Val.beq a.2 (Val.vdict ro.val)) &&
      (decide (deps ≠ 0) || passDs)) = true ↔
      ((∀ a ∈ args, ¬(a.1 = ro.oid ∨ Val.beq a.2 (Val.vdict ro.val) = true)) ∧
        (deps ≠ 0 ∨ passDs = true)) := by
    simp [not_or, List.any_eq_false]
  unfold callArgsObj
  by_cases h : (!(args.any fun a =>
      a.1 == ro.oid || Val.beq a.2 (Val.vdict ro.val)) &&
      (decide (deps ≠ 0) || passDs)) = true
  · rw [if_pos h]
    exact ⟨⟨fun _ => hcond.mp h, fun _ => rfl⟩, Or.inl rfl⟩
  · rw [if_neg h]
    refine ⟨⟨fun heq => ?_, fun hr => absurd (hcond.mpr hr) h⟩, Or.inr rfl⟩
    have hlen := congrArg List.length heq
    simp at hlen

/-- Loop of `register`: when the flag list runs past the end of the key
list, the registration raises `IndexError` at the first out-of-range
subscript. -/
theorem registerFrom_indexError (d : Nat) (ks : List (Option String)) :
    ∀ (fs : List Nat) (idx : Nat), fs ≠ [] → ks.length < idx + fs.length →
      registerFrom d ks fs idx = Except.error Err.indexError := by
  intro fs
  induction fs with
  | nil =>
    intro idx hne _
    exact absurd rfl hne
  | cons f fs ih =>
    intro idx _ hlt
    cases hk : ks.get? idx with
    | none => rw [registerFrom, hk]
    | some k =>
      have hidx : idx < ks.length := by
        by_contra hge
        rw [List.get?_eq_none.mpr (Nat.le_of_not_lt hge)] at hk
        cases hk
      cases fs with
      | nil =>
        simp only [List.length_cons, List.length_nil] at hlt
        omega
      | cons f' fs' =>
        have ht := ih (idx + 1) (List.cons_ne_nil f' fs')
          (by simp only [List.length_cons] at hlt ⊢; omega)
        rw [registerFrom, hk, ht]

/-- Loop of `register`: when every subscript is in range, the
registration succeeds with one entry per flag (surplus keys never being
read). -/
theorem registerFrom_ok (d : Nat) (ks : List (Option String)) :
    ∀ (fs : List Nat) (idx : Nat), idx + fs.length ≤ ks.length →
      ∃ es, registerFrom d ks fs idx = Except.ok es ∧
        es.length = fs.length := by
  intro fs
  induction fs with
  | nil =>
    intro idx _
    exact ⟨[], rfl, rfl⟩
  | cons f fs ih =>
    intro idx hle
    have hidx : idx < ks.length := by
      simp only [List.length_cons] at hle
      omega
    have hk : ks[idx]? = some ks[idx] := List.getElem?_eq_getElem hidx
    obtain ⟨es, he, hLen⟩ := ih (idx + 1)
      (by simp only [List.length_cons] at hle; omega)
    refine ⟨{ flag := f, depends_on := d, key := ks[idx],
              rtv_ix := idx } :: es, ?_, by simp [hLen]⟩
    simp [registerFrom, hk, he]

/-- C5 amended, proved: registering with `flag` and `key` sequences of
differing lengths is not rejected with a `ConfigurationError` (the code
has none): when the flag sequence is longer, registration fails with an
out-of-range lookup (`IndexError`); when the key sequence is longer,
registration succeeds with one entry per flag, silently dropping the
surplus keys. -/
theorem C5_amended_register_arity (fs : List Nat) (d : Nat)
    (ks : List (Option String)) :
    (ks.length < fs.length → register fs d ks = Except.error Err.indexError) ∧
    (fs.length ≤ ks.length →
      ∃ es, register fs d ks = Except.ok es ∧ es.length = fs.length) := by
  constructor
  · intro hlt
    have hne : fs ≠ [] := by
      intro he
      rw [he] at hlt
      simp at hlt
    exact registerFrom_indexError d ks fs 0 hne (by omega)
  · intro hle
    exact registerFrom_ok d ks fs 0 (by omega)

/-- C5 witness: a two-flag/one-key registration raises `IndexError`, and
a one-flag/two-key registration succeeds with exactly one entry. -/
theorem C5_amended_register_arity_witness :
    ([some "a"] : List (Option String)).length < [1, 2].length ∧
    register [1, 2] 0 [some "a"] = Except.error Err.indexError ∧
    ∃ es, register [1] 0 [some "a", some "b"] = Except.ok es ∧
      es.length = 1 :=
  ⟨by decide, (C5_amended_register_arity [1, 2] 0 [some "a"]).1 (by decide),
   (C5_amended_register_arity [1] 0 [some "a", some "b"]).2 (by decide)⟩

/-- `setKey` on a key absent from the dict appends the binding. -/
theorem setKey_fresh (k : String) (v : Val) :
    ∀ (d : List (String × Val)), (∀ p ∈ d, p.1 ≠ k) →
      setKey d k v = d ++ [(k, v)] := by
  intro d
  induction d with
  | nil => intro _; rfl
  | cons p rest ih =>
    intro hf
    obtain ⟨k', v'⟩ := p
    have hne : k' ≠ k := hf (k', v') (List.mem_cons_self ..)
    simp only [setKey]
    rw [if_neg hne, ih (fun q hq => hf q (List.mem_cons_of_mem _ hq))]
    rfl

/-- One entry per declared output. -/
theorem mkEntries9_length :
    ∀ (ps : List (Nat × String × Val)) (i : Nat),
      (mkEntries9 ps i).length = ps.length := by
  intro ps
  induction ps with
  | nil => intro i; rfl
  | cons hd tl ih =>
    intro i
    obtain ⟨f, k, v⟩ := hd
    simp [mkEntries9, ih]

/-- Folding `_get_method_flag`'s accumulator over the entries of a
multi-output dependency-free producer ORs up the flags and leaves the
dependency mask unchanged. -/
theorem mkEntries9_fold :
    ∀ (ps : List (Nat × String × Val)) (i a b : Nat),
      (mkEntries9 ps i).foldl
          (fun p e => (p.1 ||| e.flag, p.2 ||| e.depends_on)) (a, b) =
        (ps.foldl (fun x p => x ||| p.1) a, b) := by
  intro ps
  induction ps with
  | nil => intro i a b; rfl
  | cons hd tl ih =>
    intro i a b
    obtain ⟨f, k, v⟩ := hd
    simp only [mkEntries9, List.foldl_cons]
    rw [ih (i + 1) (a ||| f) (b ||| 0), Nat.or_zero]

/-- Bits already in the accumulator stay below an OR-fold. -/
theorem foldl_or_mono :
    ∀ (ps : List (Nat × String × Val)) (a x : Nat), x ||| a = a →
      x ||| ps.foldl (fun y p => y ||| p.1) a =
        ps.foldl (fun y p => y ||| p.1) a := by
  intro ps
  induction ps with
  | nil =>
    intro a x h
    exact h
  | cons hd tl ih =>
    intro a x h
    simp only [List.foldl_cons]
    exact ih (a ||| hd.1) x (by rw [← Nat.or_assoc, h])

/-- Each listed flag is a bitwise subset of the OR-fold of all flags. -/
theorem foldl_or_subset :
    ∀ (ps : List (Nat × String × Val)) (a : Nat) (p : Nat × String × Val),
      p ∈ ps → p.1 ||| ps.foldl (fun y q => y ||| q.1) a =
        ps.foldl (fun y q => y ||| q.1) a := by
  intro ps
  induction ps with
  | nil =>
    intro a p hp
    cases hp
  | cons hd tl ih =>
    intro a p hp
    rcases List.mem_cons.mp hp with h0 | hrest
    · simp only [List.foldl_cons]
      apply foldl_or_mono
      rw [h0]
      rw [Nat.or_comm, Nat.or_assoc, Nat.or_self]
    · simp only [List.foldl_cons]
      exact ih (a ||| hd.1) p hrest

/-- Return-value unpacking of a multi-output dependency-free producer:
walking its entries writes exactly the outputs whose flag intersects the
mask, in order, appending to the accumulated result (whose keys are
fresh for the remaining outputs). -/
theorem writeEntriesGo_selected (mask : Nat) (all : List (Nat × String × Val)) :
    ∀ (post pre : List (Nat × String × Val)) (acc : List (String × Val)),
      all = pre ++ post →
      (∀ p ∈ post, p.2.1 ≠ "") →
      (post.map (fun p => p.2.1)).Nodup →
      (∀ p ∈ post, ∀ q ∈ acc, q.1 ≠ p.2.1) →
      writeEntriesGo true (Val.vlist (all.map (fun p => p.2.2))) mask
          (mkEntries9 post pre.length) acc =
        Except.ok (acc ++ selected9 mask post) := by
  intro post
  induction post with
  | nil =>
    intro pre acc _ _ _ _
    simp [mkEntries9, writeEntriesGo, selected9]
  | cons hd tl ih =>
    intro pre acc hall hke hnd hfresh
    obtain ⟨f, k, v⟩ := hd
    have hidx : all[pre.length]? = some (f, k, v) := by
      rw [hall, List.getElem?_append_right (Nat.le_refl _)]
      simp
    have hpy : pyIndex (Val.vlist (all.map (fun p => p.2.2))) pre.length =
        Except.ok v := by
      simp [pyIndex, hidx]
    have hall' : all = (pre ++ [(f, k, v)]) ++ tl := by
      rw [hall]
      simp
    have hlen' : (pre ++ [(f, k, v)]).length = pre.length + 1 := by
      simp
    have hke' : ∀ p ∈ tl, p.2.1 ≠ "" :=
      fun p hp => hke p (List.mem_cons_of_mem _ hp)
    have hnd' : (tl.map (fun p => p.2.1)).Nodup := by
      simp only [List.map_cons, List.nodup_cons] at hnd
      exact hnd.2
    have hknotin : k ∉ tl.map (fun p => p.2.1) := by
      simp only [List.map_cons, List.nodup_cons] at hnd
      exact hnd.1
    by_cases hm : mask &&& f = 0
    · have hfresh' : ∀ p ∈ tl, ∀ q ∈ acc, q.1 ≠ p.2.1 :=
        fun p hp => hfresh p (List.mem_cons_of_mem _ hp)
      have hih := ih (pre ++ [(f, k, v)]) acc hall' hke' hnd' hfresh'
      rw [hlen'] at hih
      simp [mkEntries9, writeEntriesGo, hpy, hm, hih, selected9]
    · have hkt : keyTruthy (some k) = some k := by
        simp [keyTruthy, hke (f, k, v) (List.mem_cons_self ..)]
      have hset : setKey acc k v = acc ++ [(k, v)] :=
        setKey_fresh k v acc
          (fun q hq => hfresh (f, k, v) (List.mem_cons_self ..) q hq)
      have hfresh' : ∀ p ∈ tl, ∀ q ∈ acc ++ [(k, v)], q.1 ≠ p.2.1 := by
        intro p hp q hq
        rcases List.mem_append.mp hq with hqa | hqs
        · exact hfresh p (List.mem_cons_of_mem _ hp) q hqa
        · have h1 : q.1 = k := by rw [List.mem_singleton.mp hqs]
          rw [h1]
          intro heq
          exact hknotin (heq ▸ List.mem_map_of_mem (fun p => p.2.1) hp)
      have hih := ih (pre ++ [(f, k, v)]) (acc ++ [(k, v)]) hall' hke' hnd'
        hfresh'
      rw [hlen'] at hih
      simp [mkEntries9, writeEntriesGo, hpy, hm, hkt, hset, hih, selected9]

/-- The write loop of `_execute_method` over an arbitrary entry list
(truthy keys, distinct and fresh for the accumulated result; every
entry's return value extraction succeeding, as the code performs it
before the flag test): it appends exactly the (key, value) pairs of the
entries whose flag intersects the `flags` argument, in entry order —
the values of filtered-out entries are extracted but never stored. -/
theorem writeEntriesGo_filter (multi : Bool) (retval : Val) (flags : Nat)
    (keyOf : Entry → String) (valOf : Entry → Val) :
    ∀ (es : List Entry) (acc : List (String × Val)),
      (∀ e ∈ es, e.key = some (keyOf e) ∧ keyOf e ≠ "") →
      (es.map keyOf).Nodup →
      (∀ e ∈ es, ∀ q ∈ acc, q.1 ≠ keyOf e) →
      (∀ e ∈ es, (if multi then pyIndex retval e.rtv_ix
                  else Except.ok retval) = Except.ok (valOf e)) →
      writeEntriesGo multi retval flags es acc =
        Except.ok (acc ++
          (es.filter (fun e => flags &&& e.flag ≠ 0)).map
            (fun e => (keyOf e, valOf e))) := by
  intro es
  induction es with
  | nil =>
    intro acc _ _ _ _
    simp [writeEntriesGo]
  | cons e es ih =>
    intro acc hke hnd hfresh hv
    have hv0 := hv e (List.mem_cons_self ..)
    have hk0 := hke e (List.mem_cons_self ..)
    have hkt : keyTruthy e.key = some (keyOf e) := by
      rw [hk0.1]
      simp [keyTruthy, hk0.2]
    have hnd' : (es.map keyOf).Nodup := by
      simp only [List.map_cons, List.nodup_cons] at hnd
      exact hnd.2
    have hknotin : keyOf e ∉ es.map keyOf := by
      simp only [List.map_cons, List.nodup_cons] at hnd
      exact hnd.1
    by_cases hm : flags &&& e.flag = 0
    · have hih := ih acc (fun x hx => hke x (List.mem_cons_of_mem _ hx))
        hnd' (fun x hx => hfresh x (List.mem_cons_of_mem _ hx))
        (fun x hx => hv x (List.mem_cons_of_mem _ hx))
      simp [writeEntriesGo, hv0, hm, hih]
    · have hset : setKey acc (keyOf e) (valOf e) = acc ++ [(keyOf e, valOf e)] :=
        setKey_fresh _ _ acc
          (fun q hq => hfresh e (List.mem_cons_self ..) q hq)
      have hfresh' : ∀ x ∈ es, ∀ q ∈ acc ++ [(keyOf e, valOf e)],
          q.1 ≠ keyOf x := by
        intro x hx q hq
        rcases List.mem_append.mp hq with hqa | hqs
        · exact hfresh x (List.mem_cons_of_mem _ hx) q hqa
        · have h1 : q.1 = keyOf e := by rw [List.mem_singleton.mp hqs]
          rw [h1]
          intro heq
          exact hknotin (heq ▸ List.mem_map_of_mem keyOf hx)
      have hih := ih (acc ++ [(keyOf e, valOf e)])
        (fun x hx => hke x (List.mem_cons_of_mem _ hx)) hnd' hfresh'
        (fun x hx => hv x (List.mem_cons_of_mem _ hx))
      simp [writeEntriesGo, hv0, hm, hkt, hset, hih]

/-- C2 amended, proved.  First conjunct: the return-value write loop of
`_execute_method` stores an entry's value under its key if and only if
that entry's flag intersects the mask it receives — for every entry
list; the extraction hypothesis is demanded for all entries (the code
subscripts the return value before the flag test), so values of
filtered-out entries are computed but discarded.  Second conjunct: the
mask that `build_out` hands to every scheduling pass — and hence to
every such write test — is the dependency-expanded mask returned by
`_validate_flags`, not the original requested one. -/
theorem C2_amended_stored_iff_expanded :
    (∀ (multi : Bool) (retval : Val) (flags : Nat) (es : List Entry)
        (keyOf : Entry → String) (valOf : Entry → Val)
        (acc : List (String × Val)),
      (∀ e ∈ es, e.key = some (keyOf e) ∧ keyOf e ≠ "") →
      (es.map keyOf).Nodup →
      (∀ e ∈ es, ∀ q ∈ acc, q.1 ≠ keyOf e) →
      (∀ e ∈ es, (if multi then pyIndex retval e.rtv_ix
                  else Except.ok retval) = Except.ok (valOf e)) →
      writeEntriesGo multi retval flags es acc =
        Except.ok (acc ++
          (es.filter (fun e => flags &&& e.flag ≠ 0)).map
            (fun e => (keyOf e, valOf e)))) ∧
    (∀ (R : FlagRegistry) (impl : Impl) (f₀ F : Nat) (args : List Val)
        (kwargs : List (String × Val)) (pds : Bool)
        (sw : List (String × Val)),
      validateFlags R f₀ = Except.ok F →
      buildOut R impl f₀ args kwargs pds sw =
        buildOutLoop R impl pds F args kwargs R.r.length R.methods 0
          (if sw.isEmpty then [] else sw) []) := by
  constructor
  · intro multi retval flags es keyOf valOf acc h1 h2 h3 h4
    exact writeEntriesGo_filter multi retval flags keyOf valOf es acc h1 h2 h3 h4
  · intro R impl f₀ F args kwargs pds sw h
    unfold buildOut
    rw [h]

/-- C2 witness: under write mask 1, a two-output producer's entry with
flag 1 is stored and its entry with flag 2 — whose value the extraction
hypothesis covers as well, so it is computed — is discarded; and on
`Rc2`, `build_out` requested with the original mask 2 dispatches its
scheduling loop with the expanded mask 3. -/
theorem C2_amended_stored_iff_expanded_witness :
    writeEntriesGo true (Val.vlist [Val.vstr "u", Val.vstr "w"]) 1
        [{ flag := 1, depends_on := 0, key := some "x", rtv_ix := 0 },
         { flag := 2, depends_on := 0, key := some "y", rtv_ix := 1 }] [] =
      Except.ok [("x", Val.vstr "u")] ∧
    buildOut Rc2 implc2 2 [] [] false [] =
      buildOutLoop Rc2 implc2 false 3 [] [] 2 [0, 1] 0 [] [] := by
  constructor
  · have h := C2_amended_stored_iff_expanded.1 true
      (Val.vlist [Val.vstr "u", Val.vstr "w"]) 1
      [{ flag := 1, depends_on := 0, key := some "x", rtv_ix := 0 },
       { flag := 2, depends_on := 0, key := some "y", rtv_ix := 1 }]
      (fun e => if e.rtv_ix = 0 then "x" else "y")
      (fun e => if e.rtv_ix = 0 then Val.vstr "u" else Val.vstr "w") []
      (by decide) (by decide) (by intro e _ q hq; cases hq)
      (by
        intro e he
        simp only [List.mem_cons, List.not_mem_nil, or_false] at he
        rcases he with rfl | rfl
        · rfl
        · rfl)
    simpa using h
  · exact C2_amended_stored_iff_expanded.2 Rc2 implc2 2 3 [] [] false [] rfl

/-- C9: CONFIRMED.  A producer registered once with several entries (all
dependency-free, distinct truthy keys) and requested with a mask that
hits some but not all of its entry flags is invoked exactly once (the
trace holds a single call, with no snapshot since it has no
dependencies), and the result holds exactly the key/value pairs of the
entries whose flags intersect the requested mask. -/
theorem C9_multi_output_single_invocation (ps : List (Nat × String × Val))
    (mask : Nat) (hlen : 1 < ps.length)
    (hkeys : (ps.map (fun p => p.2.1)).Nodup)
    (hkeyne : ∀ p ∈ ps, p.2.1 ≠ "")
    (hsome : ∃ p ∈ ps, mask &&& p.1 ≠ 0)
    (hstrict : ∃ p ∈ ps, mask &&& p.1 = 0) :
    buildOut (R9 ps) (impl9 ps) mask [] [] false [] =
      Except.ok (selected9 mask ps,
        [{ method := 0, executedAtCall := 0, args := [] }]) := by
  have hent : (R9 ps).entriesOf 0 = mkEntries9 ps 0 := rfl
  have hms : (R9 ps).methods = [0] := rfl
  have hlen1 : (R9 ps).r.length = 1 := rfl
  have hgm : getMethodFlag (R9 ps) 0 =
      (ps.foldl (fun x p => x ||| p.1) 0, 0) := by
    simp only [getMethodFlag, hent]
    exact mkEntries9_fold ps 0 0 0
  obtain ⟨p0, hp0, hp0ne⟩ := hsome
  have hmf : mask &&& ps.foldl (fun x p => x ||| p.1) 0 ≠ 0 :=
    and_ne_zero_of_subset (foldl_or_subset ps 0 p0 hp0) hp0ne
  have hfm0 : findMethodsMatchingFlag (R9 ps) 0 = [] := by
    simp [findMethodsMatchingFlag, hms]
  have hval : validateFlags (R9 ps) mask = Except.ok mask := by
    simp [validateFlags, hms, validateFlagsGo, calculateDependencyFlag,
      hlen1, calcDep, calcDepGo, insertMethod, hgm, hfm0]
  have hwrite := writeEntriesGo_selected mask ps ps [] []
    (by simp) hkeyne hkeys (by intro p _ q hq; cases hq)
  simp only [List.nil_append, List.length_nil] at hwrite
  have hdec : decide (1 < ps.length) = true := decide_eq_true hlen
  have hexec : executeMethod (R9 ps) (impl9 ps) 0
      (ps.foldl (fun x p => x ||| p.1) 0) 0 0 [] false mask [] [] =
      Except.ok { done := true, result := selected9 mask ps,
                  invoked := some [] } := by
    simp only [executeMethod, hent, mkEntries9_length, hdec]
    rw [if_neg hmf]
    rw [if_neg (by simp : ¬((0 : Nat) ≠ 0 ∧ (0 : Nat) &&& 0 = 0))]
    simp [impl9, hwrite]
  have hpass : doMethodPass (R9 ps) (impl9 ps) [0] 0 [] false mask [] [] =
      Except.ok ([], ps.foldl (fun x p => x ||| p.1) 0,
        selected9 mask ps,
        [{ method := 0, executedAtCall := 0, args := [] }]) := by
    simp [doMethodPass, doMethodPassGo, hgm, hexec]
  simp [buildOut, hval, hms, hlen1, buildOutLoop, hpass]

/-- C9 witness: a producer with outputs on flags 1, 2 and 4 (keys "p",
"q", "r") requested with mask 5 runs once and yields exactly the "p"
and "r" outputs. -/
theorem C9_multi_output_single_invocation_witness :
    buildOut (R9 [(1, "p", Val.vint 1), (2, "q", Val.vint 2),
        (4, "r", Val.vint 3)])
      (impl9 [(1, "p", Val.vint 1), (2, "q", Val.vint 2),
        (4, "r", Val.vint 3)]) 5 [] [] false [] =
      Except.ok ([("p", Val.vint 1), ("r", Val.vint 3)],
        [{ method := 0, executedAtCall := 0, args := [] }]) :=
  C9_multi_output_single_invocation
    [(1, "p", Val.vint 1), (2, "q", Val.vint 2), (4, "r", Val.vint 3)] 5
    (by decide) (by decide)
    (by intro p hp; simp at hp; rcases hp with rfl | rfl | rfl <;> decide)
    ⟨(1, "p", Val.vint 1), List.mem_cons_self .., by decide⟩
    ⟨(2, "q", Val.vint 2), List.mem_cons_of_mem _ (List.mem_cons_self ..),
      by decide⟩

/-- C7 witness: a non-empty `start_with` (object id 5) flows through
`build_out` and the returned object keeps id 5. -/
theorem C7_amended_result_identity_witness :
    ((⟨5, [("s", Val.vstr "y")]⟩ : Obj).val ≠ []) ∧
    (⟨5, [("s", Val.vstr "y"), ("a", Val.vstr "v")]⟩ : Obj).oid = 5 :=
  ⟨by simp, (C7_amended_result_identity Rc7 implConst 1 [] [] false
      ⟨5, [("s", Val.vstr "y")]⟩ 6
      ⟨5, [("s", Val.vstr "y"), ("a", Val.vstr "v")]⟩ rfl).1 (by simp)⟩
